import Mathlib

/-!
Verification development for the LitSpy literature-mining tool.

The Python sources under litspy/ are shallowly embedded below.  Strings are
modelled as lists of characters (Python unicode strings are sequences of code
points, and Python len counts code points, which matches List.length on
List Char).  Pure helper methods become Lean functions; the while loops of the
query packer, whose termination is part of what is being checked, are embedded
with an explicit fuel argument and return Option, where none models an
execution that does not terminate (or aborts the worker).
-/

namespace LitSpy

/-- Strings of the embedded program: Python str as a list of unicode code points. -/
abbrev Str := List Char

/-- ASCII fragment of Python str.lower (the embedded program only ever relies on
ASCII case folding in the code paths modelled here). -/
def pyLowerChar (c : Char) : Char :=
  if 'A' ≤ c ∧ c ≤ 'Z' then Char.ofNat (c.toNat + 32) else c

/-- Lowercase an embedded string, character by character. -/
def pyLower (s : Str) : Str := s.map pyLowerChar

/-- ASCII fragment of Python str.upper. -/
def pyUpperChar (c : Char) : Char :=
  if 'a' ≤ c ∧ c ≤ 'z' then Char.ofNat (c.toNat - 32) else c

/-- Uppercase an embedded string, character by character. -/
def pyUpper (s : Str) : Str := s.map pyUpperChar

/-- Characters matched by the regex class backslash-s and stripped by
Python str.strip() with no arguments: space, tab, newline, carriage return,
form feed, vertical tab. -/
def isPySpace (c : Char) : Bool :=
  c = ' ' ∨ c = '\t' ∨ c = '\n' ∨ c = '\r' ∨ c = '\x0c' ∨ c = '\x0b'

/-- ASCII decimal digit test (regex class backslash-d on the inputs modelled). -/
def isPyDigit (c : Char) : Bool := '0' ≤ c ∧ c ≤ '9'

/-- ASCII word-character test for the regex word-boundary assertion:
letters, digits and underscore. -/
def isPyWordChar (c : Char) : Bool :=
  ('a' ≤ c ∧ c ≤ 'z') ∨ ('A' ≤ c ∧ c ≤ 'Z') ∨ isPyDigit c ∨ c = '_'

/-- Python substring containment, needle in haystack. -/
def pyContains (hay needle : Str) : Bool :=
  (List.range (hay.length + 1)).any (fun i => needle.isPrefixOf (hay.drop i))

/-- Python str.strip(chars): drop characters of the set from both ends. -/
def pyStrip (s : Str) (set : List Char) : Str :=
  ((s.dropWhile (set.contains ·)).reverse.dropWhile (set.contains ·)).reverse

/-- Python str.strip() with no argument: strip whitespace from both ends. -/
def pyStripWs (s : Str) : Str :=
  ((s.dropWhile isPySpace).reverse.dropWhile isPySpace).reverse

/-- Python str.split() with no argument: split on whitespace, dropping the
empty pieces that arise between adjacent whitespace characters. -/
def pySplitWs (s : Str) : List Str :=
  (s.splitOnP (fun c => isPySpace c)).filter (fun w => w ≠ [])

/-- Python " ".join of a list of strings. -/
def joinSpace : List Str → Str
  | [] => []
  | [x] => x
  | x :: xs => x ++ ' ' :: joinSpace xs

/-- Whitespace normalisation performed implicitly by the redundancy remover
when it rebuilds phrases: " ".join(s.split()). -/
def pyWsNormalize (s : Str) : Str := joinSpace (pySplitWs s)

/-- Left-to-right scan of replaceAll with an explicit step bound: every step
consumes at least one character, so a bound of the string length makes the
bound-exhausted row unreachable (it would only fire on the empty string,
where it agrees with the first row). -/
def replaceAllAux (needle repl : Str) : Nat → Str → Str
  | _, [] => []
  | 0, s => s
  | fuel+1, c :: cs =>
    if needle ≠ [] ∧ needle.isPrefixOf (c :: cs) then
      repl ++ replaceAllAux needle repl fuel ((c :: cs).drop needle.length)
    else
      c :: replaceAllAux needle repl fuel cs

/-- Replace every occurrence of a nonempty literal needle by a replacement
(Python str.replace, also re.sub with a literal pattern), scanning left to
right without overlap. -/
def replaceAll (needle repl s : Str) : Str := replaceAllAux needle repl s.length s

/-- Case-insensitive prefix test (ASCII case folding). -/
def caselessIsPrefix (needle s : Str) : Bool := (pyLower needle).isPrefixOf (pyLower s)

/-- Bounded scan of replaceAllCaseless, as for replaceAllAux. -/
def replaceAllCaselessAux (needle repl : Str) : Nat → Str → Str
  | _, [] => []
  | 0, s => s
  | fuel+1, c :: cs =>
    if needle ≠ [] ∧ caselessIsPrefix needle (c :: cs) then
      repl ++ replaceAllCaselessAux needle repl fuel ((c :: cs).drop needle.length)
    else
      c :: replaceAllCaselessAux needle repl fuel cs

/-- Replace every occurrence of a nonempty literal needle, compared
case-insensitively, keeping the replacement text as given (re.sub with
flags=re.IGNORECASE and a literal pattern). -/
def replaceAllCaseless (needle repl s : Str) : Str :=
  replaceAllCaselessAux needle repl s.length s

end LitSpy

namespace LitSpy

/-! ## The ExtractOLSSynonyms constructor and its call sites (claim C10)

ExtractOLSSynonyms.__init__(self, original_term, logger, min_syn_len,
n_threads=0) — get_synonyms.py line 127.  Python binds a call to this
signature positionally and by keyword; a required parameter (one without a
default) left unbound raises TypeError before the constructor body runs. -/

/-- One parameter of a Python function signature: its name and whether it has
a default value. -/
structure PyParam where
  pname : String
  hasDefault : Bool
deriving DecidableEq

/-- The parameter list of ExtractOLSSynonyms.__init__ after self, in source
order (get_synonyms.py line 127). -/
def extractOLSSynonymsInitParams : List PyParam :=
  [⟨"original_term", false⟩, ⟨"logger", false⟩, ⟨"min_syn_len", false⟩,
   ⟨"n_threads", true⟩]

/-- Shape of a Python call site: how many positional arguments are passed and
which keyword names are used. -/
structure PyCall where
  numPositional : Nat
  kwargs : List String
deriving DecidableEq

/-- Required parameters of a signature left unbound by a call: those without a
default that are beyond the positional arguments and not named as keywords.
Python raises TypeError when this list is nonempty. -/
def pyMissingArgs (ps : List PyParam) (c : PyCall) : List String :=
  ((ps.enum.filter (fun ip =>
      !ip.2.hasDefault && decide (c.numPositional ≤ ip.1) &&
        !(c.kwargs.contains ip.2.pname))).map (fun ip => ip.2.pname))

/-- Call raises TypeError at binding time. -/
def pyCallRaisesTypeError (ps : List PyParam) (c : PyCall) : Bool :=
  !(pyMissingArgs ps c).isEmpty

/-- Call site in Query.get_syns_in_parallel (epmc_query.py line 107):
ExtractOLSSynonyms(term, self.logger, n_threads=self.n_threads). -/
def callSiteGetSynsInParallel : PyCall := ⟨2, ["n_threads"]⟩

/-- Call site in Query.final_gene_clean (epmc_query.py line 354):
ExtractOLSSynonyms(gene, self.logger). -/
def callSiteFinalGeneClean : PyCall := ⟨2, []⟩

/-- Call site in Query.get_gene_synonyms for family-root cleaning
(epmc_query.py line 535): ExtractOLSSynonyms(orig_gene, self.logger). -/
def callSiteFamilyRootClean : PyCall := ⟨2, []⟩

/-- C10: each of the three constructions of ExtractOLSSynonyms in
epmc_query.py (get_syns_in_parallel, final_gene_clean, and the family-root
cleaning in get_gene_synonyms) omits the required min_syn_len parameter, so
every one of them raises TypeError at argument binding, before any synonym
extraction can happen; the missing argument is exactly min_syn_len. -/
theorem C10_constructor_calls_raise_type_error :
    pyCallRaisesTypeError extractOLSSynonymsInitParams callSiteGetSynsInParallel = true ∧
    pyCallRaisesTypeError extractOLSSynonymsInitParams callSiteFinalGeneClean = true ∧
    pyCallRaisesTypeError extractOLSSynonymsInitParams callSiteFamilyRootClean = true ∧
    pyMissingArgs extractOLSSynonymsInitParams callSiteGetSynsInParallel = ["min_syn_len"] ∧
    pyMissingArgs extractOLSSynonymsInitParams callSiteFinalGeneClean = ["min_syn_len"] ∧
    pyMissingArgs extractOLSSynonymsInitParams callSiteFamilyRootClean = ["min_syn_len"] := by
  decide

/-! ## Document records and redundant-preprint elimination (claim C4) -/

/-- The per-document dictionary assembled by
Query.get_relevant_info_from_results (epmc_query.py lines 889-927): ID, text
fields, keyword list, url, and the transient preprint-of pointer (the string
"nothing" when the document is not a preprint of anything). -/
structure DocInfo where
  pid : Str
  title : Str
  year : Str
  author : Str
  ptype : Str
  abstract : Str
  keywords : List Str
  url : Str
  prepOf : Str
deriving DecidableEq

/-- Sentinel value of the prep_of field for documents that are not flagged as
a preprint of anything (epmc_query.py line 898). -/
def nothingSentinel : Str := "nothing".toList

/-- LitSpy.remove_redundant_preprints, core of the per-search body
(litspy/__main__.py lines 288-294): collect all document IDs, then keep only
documents whose prep_of value is not among those IDs.  (The subsequent pop of
the prep_of key only drops the field and does not change which records are
kept.) -/
def removeRedundantPreprints (docs : List DocInfo) : List DocInfo :=
  let all_ids := docs.map (fun x => x.pid)
  docs.filter (fun x => !(all_ids.contains x.prepOf))

/-- C4: in a result list where no document identifier collides with the
literal sentinel "nothing", every non-preprint document (prep_of = "nothing")
is retained; and a document flagged as a preprint of identifier X is retained
exactly when no document with identifier X occurs in the same list (in
particular it is absent whenever such a document is present). -/
theorem C4_redundant_preprint_elimination (docs : List DocInfo) (d : DocInfo)
    (hd : d ∈ docs) (hsent : ∀ e ∈ docs, e.pid ≠ nothingSentinel) :
    (d.prepOf = nothingSentinel → d ∈ removeRedundantPreprints docs) ∧
    (d.prepOf ≠ nothingSentinel →
      (d ∈ removeRedundantPreprints docs ↔ d.prepOf ∉ docs.map (fun x => x.pid))) := by
  constructor
  · intro hflag
    simp only [removeRedundantPreprints, List.mem_filter, Bool.not_eq_true', List.contains]
    refine ⟨hd, ?_⟩
    rw [Bool.eq_false_iff]
    intro helem
    rcases List.mem_map.mp (List.elem_iff.mp helem) with ⟨e, he, hepid⟩
    exact hsent e he (hepid.trans hflag)
  · intro _
    rw [removeRedundantPreprints]
    simp only [List.mem_filter, Bool.not_eq_true', List.contains]
    constructor
    · rintro ⟨-, hnot⟩
      intro hmem
      rw [Bool.eq_false_iff] at hnot
      exact hnot (List.elem_iff.mpr hmem)
    · intro hnot
      refine ⟨hd, ?_⟩
      rw [Bool.eq_false_iff]
      intro helem
      exact hnot (List.elem_iff.mp helem)

/-- An example document list: a published paper X and a preprint of X. -/
def exPublished : DocInfo :=
  ⟨"X1".toList, "t".toList, "2020".toList, "a".toList, "research".toList,
   "abs".toList, [], "u".toList, nothingSentinel⟩

/-- Preprint record pointing at exPublished. -/
def exPreprint : DocInfo :=
  ⟨"PPR9".toList, "t".toList, "2019".toList, "a".toList, "preprint".toList,
   "abs".toList, [], "u2".toList, "X1".toList⟩

/-- Witness for C4: on the concrete two-element list, the published paper is
retained and the preprint of it is eliminated. -/
theorem C4_redundant_preprint_elimination_witness :
    ((exPreprint.prepOf = nothingSentinel →
        exPreprint ∈ removeRedundantPreprints [exPublished, exPreprint]) ∧
      (exPreprint.prepOf ≠ nothingSentinel →
        (exPreprint ∈ removeRedundantPreprints [exPublished, exPreprint] ↔
          exPreprint.prepOf ∉ [exPublished, exPreprint].map (fun x => x.pid)))) ∧
    exPreprint ∉ removeRedundantPreprints [exPublished, exPreprint] := by
  refine ⟨C4_redundant_preprint_elimination _ _ (by decide) (by decide), ?_⟩
  decide

end LitSpy

namespace LitSpy

/-! ## Whole-word search and redundancy elimination (claim C6)

ExtractOLSSynonyms.word_search (get_synonyms.py lines 309-319) compiles the
regex backslash-b (word) backslash-b with re.IGNORECASE (the word itself is
escaped, hence literal) and uses its search method; and
ExtractOLSSynonyms.remove_redundant_syns (lines 384-416) uses it to drop
synonyms that contain a shorter synonym as a whole-word substring. -/

/-- Word-character status of position i of a string, positions outside the
string counting as non-word. -/
def wordCharAt (s : Str) (i : Nat) : Bool :=
  ((s.get? i).map isPyWordChar).getD false

/-- Word-boundary assertion of the regex engine at position p of a string:
the two neighbouring positions disagree on word-character status. -/
def boundaryAt (s : Str) (p : Nat) : Bool :=
  (if p = 0 then false else wordCharAt s (p - 1)) != wordCharAt s p

/-- ExtractOLSSynonyms.word_search: the escaped word occurs in the text as a
case-insensitive substring with a word boundary immediately before and after
the occurrence. -/
def wordSearch (word text : Str) : Bool :=
  (List.range (text.length + 1)).any (fun i =>
    (pyLower word).isPrefixOf (pyLower (text.drop i)) &&
    boundaryAt text i && boundaryAt text (i + word.length))

/-- Insert an element into a list of word-lists already sorted on ascending
length, before the first strictly longer element (stable ascending insertion,
matching the stable Python list.sort with key=len). -/
def insertByLen (x : List Str) : List (List Str) → List (List Str)
  | [] => [x]
  | y :: ys => if y.length < x.length then y :: insertByLen x ys else x :: y :: ys

/-- Stable sort of word-lists on ascending length. -/
def sortByLen (l : List (List Str)) : List (List Str) :=
  l.foldr insertByLen []

/-- The list iterated by the marking loop of remove_redundant_syns: each
synonym split into words, the word-lists sorted on ascending length, each
rebuilt with single spaces (get_synonyms.py lines 396-398). -/
def sortOnPhraseLength (syns : List Str) : List Str :=
  (sortByLen (syns.map pySplitWs)).map joinSpace

/-- Synonyms of the list that one pass of the inner marking loop appends to
the redundant list for a given term: every occurrence that is not the term
itself and contains the term as a whole-word substring (lines 403-410). -/
def markBatch (syns : List Str) (term : Str) : List Str :=
  syns.filter (fun syn => !(syn == term) && wordSearch term syn)

/-- The marking loop of remove_redundant_syns: iterate the sorted phrases,
skipping a term already recorded as redundant, otherwise appending its batch
of matching synonyms to the redundant list. -/
def markFold (syns : List Str) : List Str → List Str → List Str
  | [], red => red
  | t :: ts, red =>
    markFold syns ts (if red.contains t then red else red ++ markBatch syns t)

/-- ExtractOLSSynonyms.remove_redundant_syns (get_synonyms.py lines 384-416):
mark redundant synonyms starting from the phrases with the fewest words, then
remove each marked entry (first occurrence) from the synonym list. -/
def removeRedundantSyns (syns : List Str) : List Str :=
  let redundant := markFold syns (sortOnPhraseLength syns) []
  redundant.foldl (fun l r => l.erase r) syns

end LitSpy

namespace LitSpy

/-- Counting after removing each member of a list (first occurrence each):
the count of any value drops by the number of its occurrences among the
removed entries, truncated at zero. -/
theorem count_foldl_erase (red : List Str) :
    ∀ (syns : List Str) (v : Str),
      (red.foldl (fun l r => l.erase r) syns).count v = syns.count v - red.count v := by
  induction red with
  | nil => intro syns v; simp
  | cons r rs ih =>
    intro syns v
    simp only [List.foldl_cons, ih, List.count_erase, List.count_cons]
    rcases eq_or_ne r v with h | h
    · simp [h, beq_iff_eq]
      omega
    · simp [h, beq_iff_eq, Ne.symm h]

/-- Monotonicity of the marking loop: marks are only appended. -/
theorem count_markFold_mono (syns : List Str) (ts : List Str) :
    ∀ (red : List Str) (v : Str), red.count v ≤ (markFold syns ts red).count v := by
  induction ts with
  | nil => intro red v; simp [markFold]
  | cons t ts ih =>
    intro red v
    simp only [markFold]
    by_cases h : red.contains t = true
    · rw [if_pos h]; exact ih red v
    · rw [if_neg h]
      calc red.count v ≤ (red ++ markBatch syns t).count v := by
            simp [List.count_append]
        _ ≤ _ := ih _ v

/-- Count of a value in one marking batch: the full occurrence count of the
value in the synonym list when the value differs from the term and contains
it as a whole-word substring, zero otherwise. -/
theorem count_markBatch (syns : List Str) (t v : Str) :
    (markBatch syns t).count v =
      if v ≠ t ∧ wordSearch t v = true then syns.count v else 0 := by
  by_cases h : v ≠ t ∧ wordSearch t v = true
  · rw [if_pos h, markBatch, List.count_filter]
    simp only [Bool.and_eq_true, Bool.not_eq_true', beq_eq_false_iff_ne]
    exact (by simpa using h)
  · rw [if_neg h, markBatch, List.count_eq_zero]
    intro hmem
    rcases List.mem_filter.mp hmem with ⟨-, hpred⟩
    simp only [Bool.and_eq_true, Bool.not_eq_true', beq_eq_false_iff_ne] at hpred
    exact h hpred

/-- Dichotomy of the marking loop: a value is either never marked beyond the
marks already accumulated, or it is marked at least once per occurrence in
the synonym list. -/
theorem count_markFold_dichotomy (syns : List Str) (ts : List Str) :
    ∀ (red : List Str) (v : Str),
      (markFold syns ts red).count v = red.count v ∨
        syns.count v ≤ (markFold syns ts red).count v := by
  induction ts with
  | nil => intro red v; left; simp [markFold]
  | cons t ts ih =>
    intro red v
    simp only [markFold]
    by_cases h : red.contains t = true
    · rw [if_pos h]; exact ih red v
    · rw [if_neg h]
      by_cases hp : v ≠ t ∧ wordSearch t v = true
      · right
        calc syns.count v = (markBatch syns t).count v := by rw [count_markBatch, if_pos hp]
          _ ≤ (red ++ markBatch syns t).count v := by simp [List.count_append]
          _ ≤ _ := count_markFold_mono syns ts _ v
      · have hc : (red ++ markBatch syns t).count v = red.count v := by
          rw [List.count_append, count_markBatch, if_neg hp]
          omega
        rcases ih (red ++ markBatch syns t) v with he | hge
        · left; rw [he, hc]
        · right; exact hge

/-- Membership in the marks is preserved by further marking. -/
theorem mem_markFold_mono (syns : List Str) (ts : List Str) (red : List Str) (v : Str)
    (h : v ∈ red) : v ∈ markFold syns ts red := by
  have h1 : 0 < red.count v := List.count_pos_iff.mpr h
  exact List.count_pos_iff.mp (lt_of_lt_of_le h1 (count_markFold_mono syns ts red v))

/-- Execution of the marking pass of a term: when a term of the iterated list
never ends up recorded as redundant, its pass ran, so every other synonym that
contains it as a whole-word substring is marked once per occurrence. -/
theorem count_markFold_of_executed (syns : List Str) (ts : List Str) :
    ∀ (red : List Str) (x y : Str), x ∈ ts → x ∉ markFold syns ts red →
      y ≠ x → wordSearch x y = true →
      syns.count y ≤ (markFold syns ts red).count y := by
  induction ts with
  | nil => intro red x y hx; exact absurd hx (List.not_mem_nil x)
  | cons t ts ih =>
    intro red x y hx hnot hne hws
    simp only [markFold] at hnot ⊢
    by_cases h : red.contains t = true
    · rw [if_pos h] at hnot ⊢
      rcases List.mem_cons.mp hx with hxt | hxts
      · subst hxt
        exact absurd (mem_markFold_mono syns ts red x (List.elem_iff.mp h)) hnot
      · exact ih red x y hxts hnot hne hws
    · rw [if_neg h] at hnot ⊢
      rcases List.mem_cons.mp hx with hxt | hxts
      · subst hxt
        have hcnt : syns.count y ≤ (red ++ markBatch syns x).count y := by
          rw [List.count_append, count_markBatch, if_pos ⟨hne, hws⟩]
          omega
        exact le_trans hcnt (count_markFold_mono syns ts _ y)
      · exact ih _ x y hxts hnot hne hws

/-- Membership is preserved by sorted insertion. -/
theorem mem_insertByLen (x a : List Str) (l : List (List Str)) :
    a ∈ insertByLen x l ↔ a = x ∨ a ∈ l := by
  induction l with
  | nil => simp [insertByLen]
  | cons y ys ih =>
    simp only [insertByLen]
    by_cases h : y.length < x.length
    · rw [if_pos h]
      simp only [List.mem_cons, ih]
      tauto
    · rw [if_neg h]
      simp only [List.mem_cons]

/-- Membership is preserved by the stable length sort. -/
theorem mem_sortByLen (a : List Str) (l : List (List Str)) :
    a ∈ sortByLen l ↔ a ∈ l := by
  induction l with
  | nil => simp [sortByLen]
  | cons y ys ih =>
    simp only [sortByLen, List.foldr_cons] at *
    rw [mem_insertByLen, ih, List.mem_cons]

/-- Every whitespace-normalised member of the synonym list appears among the
phrases iterated by the marking loop. -/
theorem mem_sortOnPhraseLength (syns : List Str) (x : Str) (hx : x ∈ syns)
    (hnx : pyWsNormalize x = x) : x ∈ sortOnPhraseLength syns := by
  rw [sortOnPhraseLength, List.mem_map]
  refine ⟨pySplitWs x, ?_, hnx⟩
  rw [mem_sortByLen, List.mem_map]
  exact ⟨x, hx, rfl⟩

/-- C6 amended: on a synonym list all of whose members are already
whitespace-normalised (single spaces, no leading or trailing whitespace),
remove_redundant_syns leaves no two distinct members such that one is a
whole-word-boundaried case-insensitive substring of the other (in the sense
of the word_search helper the code itself uses). -/
theorem C6_no_wholeword_substring_pairs (syns : List Str)
    (hnorm : ∀ s ∈ syns, pyWsNormalize s = s)
    (x y : Str) (hx : x ∈ removeRedundantSyns syns) (hy : y ∈ removeRedundantSyns syns)
    (hne : x ≠ y) : wordSearch x y = false := by
  set red := markFold syns (sortOnPhraseLength syns) [] with hred
  have hres : removeRedundantSyns syns = red.foldl (fun l r => l.erase r) syns := rfl
  -- occurrence counts of the two surviving members
  have hxcnt : 0 < (red.foldl (fun l r => l.erase r) syns).count x :=
    List.count_pos_iff.mpr (hres ▸ hx)
  have hycnt : 0 < (red.foldl (fun l r => l.erase r) syns).count y :=
    List.count_pos_iff.mpr (hres ▸ hy)
  rw [count_foldl_erase] at hxcnt hycnt
  have hxred : red.count x < syns.count x := by omega
  have hyred : red.count y < syns.count y := by omega
  have hxsyns : x ∈ syns := List.count_pos_iff.mp (by omega)
  -- x was never marked redundant
  have hxzero : red.count x = 0 := by
    rcases count_markFold_dichotomy syns (sortOnPhraseLength syns) [] x with h0 | hge
    · rw [hred, h0]; simp
    · rw [hred] at hxred ⊢; omega
  have hxnot : x ∉ red := by
    intro hmem
    have := List.count_pos_iff.mpr hmem
    omega
  -- so the marking pass of x executed and would have marked y
  by_contra hws
  rw [Bool.not_eq_false] at hws
  have hterm : x ∈ sortOnPhraseLength syns :=
    mem_sortOnPhraseLength syns x hxsyns (hnorm x hxsyns)
  have hmarked := count_markFold_of_executed syns (sortOnPhraseLength syns) [] x y
    hterm (hred ▸ hxnot) (Ne.symm hne) hws
  rw [← hred] at hmarked
  omega

/-- Witness for the amended C6: a concrete normalised list on which both
members survive and indeed neither is a whole-word substring of the other. -/
theorem C6_no_wholeword_substring_pairs_witness :
    wordSearch "aa".toList "bb".toList = false :=
  C6_no_wholeword_substring_pairs ["aa".toList, "bb".toList] (by decide)
    "aa".toList "bb".toList (by decide) (by decide) (by decide)

/-- C6 counterexample: the claim as stated fails, because the marking loop
searches for the whitespace-normalised form of each phrase while the list
keeps the original spelling.  With members "a  b" and "c a  b d" (double
spaces inside), nothing is removed, yet the two distinct surviving members
are in the whole-word-substring relation that the claim forbids. -/
theorem C6_counterexample :
    removeRedundantSyns ["a  b".toList, "c a  b d".toList]
        = ["a  b".toList, "c a  b d".toList] ∧
      "a  b".toList ≠ "c a  b d".toList ∧
      wordSearch "a  b".toList "c a  b d".toList = true := by
  refine ⟨by decide, by decide, by decide⟩

end LitSpy

namespace LitSpy

/-! ## Static tables (alternative_characters.py and noisy_phrases.py) -/

/-- Hyphen variants treated as spaces (alternative_characters.py line 30). -/
def hyphens : List Char := ['-', '–', '—', '‑']

/-- Roman numeral characters (alternative_characters.py line 28). -/
def numerals : List Char := ['I', 'X', 'V']

/-- Greek letter table: word form paired with the character variants treated
as equivalent (alternative_characters.py lines 3-26). -/
def greekDict : List (Str × List Str) :=
  [("alpha".toList, ["α".toList, "𝛂".toList, "𝛼".toList]),
   ("beta".toList, ["β".toList, "ϐ".toList, "𝛽".toList, "ᵝ".toList]),
   ("gamma".toList, ["γ".toList, "𝛄".toList, "ℽ".toList, "𝛾".toList]),
   ("delta".toList, ["δ".toList, "𝛿".toList, "ẟ".toList]),
   ("epsilon".toList, ["ε".toList, "ɛ".toList, "ϵ".toList]),
   ("zeta".toList, ["ζ".toList, "𝛇".toList]),
   ("eta".toList, ["η".toList]),
   ("theta".toList, ["Θ".toList, "ϑ".toList, "Ѳ".toList]),
   ("iota".toList, ["Ι".toList, "Ɩ".toList]),
   ("kappa".toList, ["Κ".toList, "ϰ".toList]),
   ("lambda".toList, ["Λ".toList]),
   ("mu".toList, ["Μ".toList, "µ".toList, "𝜇".toList, "𝝁".toList]),
   ("nu".toList, ["Ν".toList, "𝜈".toList]),
   ("xi".toList, ["ξ".toList]),
   ("omicron".toList, ["Ο".toList]),
   ("pi".toList, ["Π".toList, "ϖ".toList, "𝜋".toList]),
   ("rho".toList, ["Ρ".toList]),
   ("sigma".toList, ["Σ".toList, "ς".toList, "𝜎".toList]),
   ("tau".toList, ["Τ".toList]),
   ("upsilon".toList, ["Υ".toList, "ϒ".toList]),
   ("phi".toList, ["φ".toList, "ϕ".toList, "Ф".toList]),
   ("chi".toList, ["χ".toList]),
   ("psi".toList, ["ψ".toList, "𝛹".toList]),
   ("omega".toList, ["Ω".toList, "ѡ".toList])]

/-- All greek word forms followed by all character variants, in table order
(the greek_char_list attribute built in the ExtractOLSSynonyms constructor,
get_synonyms.py lines 147-149). -/
def greekCharList : List Str :=
  greekDict.map Prod.fst ++ (greekDict.map Prod.snd).flatten

/-- Noise indicators: any collected term containing one of these (compared
upper-cased) is discarded (noisy_phrases.py lines 7-14). -/
def synonymNoiseIndicators : List Str :=
  [":", "@", " email ", "doi.org", "Wikipedia", "github", "TODO ", " et al", "th ed.", "[WP]",
   "see also", "see article", "Editor node", "Editor note", "Taxon notes ",
   "Consider merging", "mapping confirmed", "partof ", "Requires expert input",
   "UMLS CUI", "synonyms", " doid ", "doid/", "Xref ",
   "Definition based on", "characterized by", "symptoms ",
   "believed to be derived from", "We place ",
   "mice have ", "mouse has ", " to form ", "will be ceded", "use the term", "same name",
   "presumed but not proven", "occurs in", "are different", "term renamed"].map String.toList

/-! ## Cleaning helpers shared by the pipeline (get_synonyms.py) -/

/-- Deterministic model of the Python list(set(...)) deduplication used
throughout the cleaning pipeline (Python set iteration order is unspecified;
the model keeps the first occurrence of each value in list order). -/
def dedupKeepFirst (l : List Str) : List Str :=
  l.foldl (fun acc x => if acc.contains x then acc else acc ++ [x]) []

/-- Replacement of every whitespace run of length at least two by one space:
re.sub with pattern backslash-s two-or-more (runs of a single whitespace
character other than space are kept as they are). -/
def squashSpacesAux : Nat → Str → Str
  | _, [] => []
  | 0, s => s
  | fuel+1, c :: cs =>
    if isPySpace c ∧ (cs.head?.map isPySpace).getD false then
      ' ' :: squashSpacesAux fuel (cs.dropWhile isPySpace)
    else
      c :: squashSpacesAux fuel cs

/-- Bounded-scan entry point for the whitespace-run replacement. -/
def squashSpaces (s : Str) : Str := squashSpacesAux s.length s

/-- Bracket pair containing a digit or roman numeral: the check
re.findall of backslash-open-paren dot-star [numerals digits]+ dot-star
backslash-close-paren finds a match (get_synonyms.py line 361).  The dot of
the pattern does not cross newlines. -/
def hasNumeralBrackets (s : Str) : Bool :=
  (List.range s.length).any (fun i =>
    (s.get? i == some '(') &&
    (List.range s.length).any (fun j =>
      i < j && (s.get? j == some ')') &&
      (((s.drop (i+1)).take (j - i - 1)).all (fun c => c != '\n')) &&
      (((s.drop (i+1)).take (j - i - 1)).any (fun c => isPyDigit c || numerals.contains c))))

/-- Removal of bracketed chunks: re.sub of [open-brackets]+ lazy-dot-star
[close-brackets]+ by the empty string (get_synonyms.py line 362).  The scan
is left to right; at an opening bracket the maximal opener run is taken, the
lazy middle runs to the first closing bracket (the dot cannot cross a
newline), and the maximal closer run is consumed. -/
def removeBracketChunksAux : Nat → Str → Str
  | _, [] => []
  | 0, s => s
  | fuel+1, c :: cs =>
    if c = '(' ∨ c = '[' then
      let nOpen := ((c :: cs).takeWhile (fun a => a == '(' || a == '[')).length
      let nMid := (((c :: cs).drop nOpen).takeWhile
        (fun a => !(a == ')' || a == ']') && a != '\n')).length
      let rest := (c :: cs).drop (nOpen + nMid)
      if (rest.head?.map (fun a => a == ')' || a == ']')).getD false then
        let nClose := (rest.takeWhile (fun a => a == ')' || a == ']')).length
        removeBracketChunksAux fuel ((c :: cs).drop (nOpen + nMid + nClose))
      else
        c :: removeBracketChunksAux fuel cs
    else c :: removeBracketChunksAux fuel cs

/-- Bounded-scan entry point for the bracketed-chunk removal. -/
def removeBracketChunks (s : Str) : Str := removeBracketChunksAux s.length s

end LitSpy

namespace LitSpy

/-- Tissue-specific noise pattern re.match of [A-Z] digits-plus end-anchor
(get_synonyms.py line 375); terms reaching this check contain no newline, so
the end anchor is plain end of string. -/
def isTissueCode (s : Str) : Bool :=
  match s with
  | [] => false
  | c :: rest => decide ('A' ≤ c ∧ c ≤ 'Z') && !rest.isEmpty && rest.all isPyDigit

/-- The in-place replacement chain of remove_noise_and_punctuation applied to
one term (get_synonyms.py lines 348-368): marker words and punctuation
become spaces, bracketed chunks without digits or numerals are removed,
newlines become spaces, space runs are shortened, ends are stripped. -/
def cleanNoiseTerm (term : Str) : Str :=
  let t := replaceAll "EXACT".toList " ".toList term
  let t := replaceAll "susceptibility to".toList " ".toList t
  let t := replaceAll "working designation".toList " ".toList t
  let t := replaceAll "_".toList " ".toList t
  let t := replaceAll ",".toList " ".toList t
  let t := replaceAll "?".toList " ".toList t
  let t := replaceAll "\"".toList " ".toList t
  let t := replaceAll "“".toList " ".toList t
  let t := replaceAll "”".toList " ".toList t
  let t := hyphens.foldl (fun s h => replaceAll [h] " ".toList s) t
  let t := if !hasNumeralBrackets t then removeBracketChunks t else t
  let t := replaceAll "(".toList " ".toList t
  let t := replaceAll ")".toList " ".toList t
  let t := replaceAll "\n".toList " ".toList t
  let t := squashSpaces t
  pyStripWs t

/-- ExtractOLSSynonyms.remove_noise_and_punctuation (get_synonyms.py lines
321-382): deduplicate, drop terms containing the original term as a
whole-word substring, terms with noise indicators (except GO identifiers),
and terms with a period but no digit; clean the survivors, keep those at
least the minimum synonym length (with an extra pattern filter for tissues),
and put the original term in front. -/
def removeNoiseAndPunctuation (origTerm : Str) (minSynLen : Nat)
    (synList : List Str) (synType : Str) : List Str :=
  let unique := dedupKeepFirst synList
  let filtered := unique.foldl (fun acc term =>
    if wordSearch origTerm term then acc
    else if !("GO:".toList.isPrefixOf term) &&
        synonymNoiseIndicators.any (fun n => pyContains (pyUpper term) (pyUpper n)) then acc
    else if term.contains '.' && !(term.any isPyDigit) then acc
    else
      let t := cleanNoiseTerm term
      if minSynLen ≤ t.length then
        if synType = "tissue".toList then
          if isTissueCode t then acc else acc ++ [t]
        else acc ++ [t]
      else acc) []
  origTerm :: filtered

/-! ## Phrase-order expansion for "type" synonyms (get_synonyms.py 522-573) -/

/-- Characters of the regex class whitespace, digits and roman numerals. -/
def isTypeRunChar (c : Char) : Bool := isPySpace c || isPyDigit c || numerals.contains c

/-- ASCII letter test (regex class a-zA-Z). -/
def isAsciiLetter (c : Char) : Bool :=
  decide ('a' ≤ c ∧ c ≤ 'z') || decide ('A' ≤ c ∧ c ≤ 'Z')

/-- The regex class [A-z], character codes 65 to 122 (letters plus the six
punctuation characters between the cases). -/
def isAzClass (c : Char) : Bool := decide ('A' ≤ c ∧ c ≤ 'z')

/-- All characters of the slice [i, j) of a string satisfy a predicate. -/
def sliceAll (s : Str) (i j : Nat) (p : Char → Bool) : Bool :=
  ((s.drop i).take (j - i)).all p

/-- Greedy star over the greek alternation of the type regex: repeatedly
consume the first alternative (in table order) that is a prefix at the
current position. -/
def greekStarEnd (s : Str) : Nat → Nat → Nat
  | 0, pos => pos
  | fuel+1, pos =>
    match greekCharList.find? (fun g => !g.isEmpty && g.isPrefixOf (s.drop pos)) with
    | some g => greekStarEnd s fuel (pos + g.length)
    | none => pos

/-- End of the capture group of the type regex after the literal type at a
given start: a greedy run of whitespace, digits and numerals (backtracked
until the word-boundary assertion holds), an optional single letter between
word boundaries, a second such run, greek alternatives, and a final run of
whitespace and digits. -/
def typeXTailEnd (s : Str) (afterPos : Nat) : Option Nat :=
  let maxRun := ((s.drop afterPos).takeWhile isTypeRunChar).length
  ((List.range (maxRun + 1)).reverse).findSome? (fun r1 =>
    let pos := afterPos + r1
    if boundaryAt s pos then
      let letterEnd :=
        if (((s.get? pos).map isAsciiLetter).getD false) && boundaryAt s (pos + 1)
        then pos + 1 else pos
      let r2end := letterEnd + ((s.drop letterEnd).takeWhile isTypeRunChar).length
      let gEnd := greekStarEnd s (s.length + 1) r2end
      some (gEnd + ((s.drop gEnd).takeWhile (fun c => isPySpace c || isPyDigit c)).length)
    else none)

/-- Capture group of the type regex of expand_types (get_synonyms.py lines
557-558): the pattern is anchored, the leading greedy dot-star places the
group at the rightmost feasible position with a newline-free prefix, and the
group starts with the word type in any letter case. -/
def typeXGroup (s : Str) : Option Str :=
  ((List.range s.length).reverse).findSome? (fun g =>
    if caselessIsPrefix "type".toList (s.drop g) && (s.take g).all (fun c => c != '\n') then
      (typeXTailEnd s (g + 4)).map (fun e => (s.drop g).take (e - g))
    else none)

/-- Feasibility of a match of the hyphen-type regex dot-plus whitespace-star
hyphen whitespace-star type (get_synonyms.py line 556) covering [st, e) of
the lowered synonym: the literal type at the end, a hyphen before it
separated only by whitespace, and before the hyphen a nonempty dot-plus part
(possibly followed by whitespace) that cannot cross a newline. -/
def xHyphenFeasible (low : Str) (st e : Nat) : Bool :=
  decide (st + 6 ≤ e) && decide (e ≤ low.length) &&
  "type".toList.isPrefixOf (low.drop (e - 4)) &&
  ((List.range low.length).any (fun h =>
    decide (st < h) && decide (h < e - 4) &&
    (((low.get? h).map (fun c => hyphens.contains c)).getD false) &&
    sliceAll low (h + 1) (e - 4) isPySpace &&
    ((List.range (h + 1)).any (fun k =>
      decide (st + 1 ≤ k) && decide (k ≤ h) &&
      sliceAll low k h isPySpace &&
      sliceAll low st k (fun c => c != '\n')))))

/-- Capture group of the hyphen-type regex: leftmost match start, then the
greedy dot-plus extends the match to the rightmost feasible end. -/
def xHyphenTypeGroup (low : Str) : Option Str :=
  (List.range low.length).findSome? (fun st =>
    ((List.range (low.length + 1)).reverse).findSome? (fun e =>
      if xHyphenFeasible low st e then some ((low.drop st).take (e - st)) else none))

/-- ExtractOLSSynonyms.create_type_variations (get_synonyms.py lines
522-539): strip the type phrase, delete its occurrences from the synonym
(case-insensitive), and emit both orderings with space runs shortened. -/
def createTypeVariations (typePhrase syn : Str) : List Str :=
  let tp := pyStripWs typePhrase
  let intermediate := pyStripWs (replaceAllCaseless tp [] syn)
  let endv := intermediate ++ (' ' :: tp)
  let startv := tp ++ (' ' :: intermediate)
  [squashSpaces endv, squashSpaces startv]

/-- ExtractOLSSynonyms.expand_types (get_synonyms.py lines 541-573): for
synonyms containing the word type, add the phrase reorderings derived from
the two type regexes, then deduplicate. -/
def expandTypes (syns : List Str) : List Str :=
  let additional := syns.foldl (fun acc syn =>
    if pyContains (pyLower syn) "type".toList then
      let acc1 := match xHyphenTypeGroup (pyLower syn) with
        | some g => acc ++ createTypeVariations g syn
        | none => acc
      match typeXGroup syn with
      | some g =>
        if pyLower (pyStripWs g) ≠ "type".toList then acc1 ++ createTypeVariations g syn
        else acc1
      | none => acc1
    else acc) []
  dedupKeepFirst (syns ++ additional)

/-- ExtractOLSSynonyms.remove_chain_from_end (get_synonyms.py lines 575-596):
strip each synonym, delete all case-insensitive occurrences of chain or
chains when the synonym ends with that word, strip again, deduplicate. -/
def removeChainFromEnd (syns : List Str) : List Str :=
  dedupKeepFirst (syns.map (fun syn =>
    let s := pyStripWs syn
    if "chain".toList.isSuffixOf s then pyStripWs (replaceAllCaseless "chain".toList [] s)
    else if "chains".toList.isSuffixOf s then pyStripWs (replaceAllCaseless "chains".toList [] s)
    else s))

end LitSpy

namespace LitSpy

/-! ## Greek letter expansion (get_synonyms.py lines 598-628) -/

/-- Anchored match of key, optional single whitespace, then digits
(re.match with IGNORECASE), used to drop noisy synonyms like gamma 2. -/
def matchKeyDigits (syn key : Str) : Bool :=
  caselessIsPrefix key syn &&
    (match syn.drop key.length with
     | [] => false
     | c :: cs => isPyDigit c || (isPySpace c && ((cs.head?.map isPyDigit).getD false)))

/-- Anchored match of dot-star, word-bounded key, dot-star (re.match with
IGNORECASE): a case-insensitive occurrence of the key between word
boundaries whose prefix contains no newline. -/
def keyWordBounded (syn key : Str) : Bool :=
  (List.range (syn.length + 1)).any (fun i =>
    caselessIsPrefix key (syn.drop i) && boundaryAt syn i && boundaryAt syn (i + key.length) &&
    (syn.take i).all (fun c => c != '\n'))

/-- Anchored match of dot-star, non-letter, key, non-letter, dot-star
(re.match with IGNORECASE): an occurrence of the key with one non-ASCII-letter
character on each side and a newline-free prefix. -/
def keyNonAlphaDelim (syn key : Str) : Bool :=
  (List.range (syn.length + 1)).any (fun i =>
    decide (1 ≤ i) && caselessIsPrefix key (syn.drop i) &&
    (((syn.get? (i - 1)).map (fun c => !isAsciiLetter c)).getD false) &&
    (((syn.get? (i + key.length)).map (fun c => !isAsciiLetter c)).getD false) &&
    (syn.take (i - 1)).all (fun c => c != '\n'))

/-- ExtractOLSSynonyms.expand_greek_letters (get_synonyms.py lines 598-628):
for every synonym and every table entry, record noisy synonyms of the form
greek-word digits for removal, substitute character variants for word forms
found with suitable delimiters, and for character variants present in the
synonym substitute the other variants and the word form; then drop the
recorded synonyms, append the substitutions and deduplicate. -/
def expandGreekLetters (syns : List Str) : List Str :=
  let acc := syns.foldl (fun (st : List Str × List Str) syn =>
    greekDict.foldl (fun st kv =>
      let st1 :=
        if matchKeyDigits syn kv.1 then (st.1, st.2 ++ [syn])
        else if keyWordBounded syn kv.1 || keyNonAlphaDelim syn kv.1 then
          (st.1 ++ kv.2.map (fun ch => replaceAllCaseless kv.1 ch syn), st.2)
        else st
      kv.2.foldl (fun st2 ch =>
        if !matchKeyDigits syn ch && pyContains (pyUpper syn) (pyUpper ch) then
          (st2.1 ++ kv.2.map (fun oc => replaceAll ch oc syn) ++ [replaceAll ch kv.1 syn],
           st2.2)
        else st2) st1) st) ([], [])
  dedupKeepFirst ((syns.filter (fun i => !(acc.2.contains i))) ++ acc.1)

/-! ## Spacing variants around numbers (get_synonyms.py lines 418-503) -/

/-- Whitespace or digit. -/
def isWsOrDigit (c : Char) : Bool := isPySpace c || isPyDigit c

/-- Decomposition of a segment as whitespace-star, optional [A-z] character,
then whitespace-or-digit-star: the optional tail of the number regexes
between the digit run and the final word boundary. -/
def tailDecomposes (seg : Str) : Bool :=
  (List.range (seg.length + 1)).any (fun a =>
    (seg.take a).all isPySpace &&
    (let rest := seg.drop a
     rest.all isWsOrDigit ||
       (match rest with
        | c :: cs => isAzClass c && cs.all isWsOrDigit
        | [] => true)))

/-- Existence of a search match of dot-star, non-space-non-digit-plus,
digits-plus, whitespace-star, optional [A-z], whitespace-or-digit-star, word
boundary (the add_space_before_number pattern, get_synonyms.py line 432):
some digit directly preceded by a non-space non-digit character, from whose
run the optional tail reaches a word boundary. -/
def searchNumberInGene (s : Str) : Bool :=
  (List.range s.length).any (fun d =>
    (((s.get? d).map isPyDigit).getD false) &&
    decide (1 ≤ d) &&
    (((s.get? (d - 1)).map (fun c => !(isPySpace c || isPyDigit c))).getD false) &&
    (let e1 := d + ((s.drop d).takeWhile isPyDigit).length
     (List.range (s.length + 1)).any (fun r =>
       decide (e1 ≤ r) && tailDecomposes ((s.drop e1).take (r - e1)) && boundaryAt s r)))

/-- End of a match of the add_space pattern starting at a given position:
the greedy leading dot-star selects the last digit reachable without
crossing a newline, then the greedy optional tail runs to the furthest
position satisfying the final word boundary. -/
def numberInGeneMatchEnd (s : Str) (i : Nat) : Option Nat :=
  ((List.range s.length).reverse).findSome? (fun d =>
    if (((s.get? d).map isPyDigit).getD false) && decide (i + 1 ≤ d) &&
        (((s.get? (d - 1)).map (fun c => !(isPySpace c || isPyDigit c))).getD false) &&
        ((s.drop i).take (d - 1 - i)).all (fun c => c != '\n') then
      let e1 := d + ((s.drop d).takeWhile isPyDigit).length
      ((List.range (s.length + 1)).reverse).findSome? (fun r =>
        if decide (e1 ≤ r) && tailDecomposes ((s.drop e1).take (r - e1)) && boundaryAt s r
        then some r else none)
    else none)

/-- End of a match of the remove_space pattern whitespace-plus, digits-plus,
then the same optional tail and word boundary, starting at a position. -/
def shMatchEnd (s : Str) (i : Nat) : Option Nat :=
  let wsRun := ((s.drop i).takeWhile isPySpace).length
  if 1 ≤ wsRun then
    let d := i + wsRun
    let digRun := ((s.drop d).takeWhile isPyDigit).length
    if 1 ≤ digRun then
      let e1 := d + digRun
      ((List.range (s.length + 1)).reverse).findSome? (fun r =>
        if decide (e1 ≤ r) && tailDecomposes ((s.drop e1).take (r - e1)) && boundaryAt s r
        then some r else none)
    else none
  else none

/-- Non-overlapping left-to-right matches (re.finditer) given a match-end
routine: the fuel is bounded by the string length plus one since every match
is nonempty and the scan position advances past it. -/
def findIterSpans (matchEnd : Str → Nat → Option Nat) (s : Str) :
    Nat → Nat → List (Nat × Nat)
  | 0, _ => []
  | fuel+1, pos =>
    match (List.range (s.length + 1)).findSome? (fun i =>
        if pos ≤ i then (matchEnd s i).map (fun e => (i, e))
        else none) with
    | some (i, e) => (i, e) :: findIterSpans matchEnd s fuel (max e (i + 1))
    | none => []

/-- Bounded scan collecting maximal digit runs. -/
def digitRunsAux : Nat → Str → List Str
  | _, [] => []
  | 0, _ => []
  | fuel+1, c :: cs =>
    if isPyDigit c then
      ((c :: cs).takeWhile isPyDigit) :: digitRunsAux fuel ((c :: cs).dropWhile isPyDigit)
    else digitRunsAux fuel cs

/-- Maximal digit runs of a string, in order (re.finditer of digits-plus). -/
def digitRuns (s : Str) : List Str := digitRunsAux s.length s

/-- Bounded scan of replaceCount. -/
def replaceCountAux (needle repl : Str) : Nat → Nat → Str → Str
  | _, _, [] => []
  | _, 0, s => s
  | 0, _, s => s
  | fuel+1, cnt+1, c :: cs =>
    if needle ≠ [] ∧ needle.isPrefixOf (c :: cs) then
      repl ++ replaceCountAux needle repl fuel cnt ((c :: cs).drop needle.length)
    else c :: replaceCountAux needle repl fuel (cnt + 1) cs

/-- Replacement of the first count occurrences of a nonempty literal needle
(re.sub with a count argument and a literal pattern). -/
def replaceCount (needle repl : Str) (cnt : Nat) (s : Str) : Str :=
  replaceCountAux needle repl s.length cnt s

/-- Bounded scan of spaceDigitRuns. -/
def spaceDigitRunsAux : Nat → Nat → Str → Str
  | _, 0, s => s
  | _, _, [] => []
  | 0, _, s => s
  | fuel+1, cnt+1, c :: cs =>
    if isPyDigit c then
      (' ' :: (c :: cs).takeWhile isPyDigit) ++
        spaceDigitRunsAux fuel cnt ((c :: cs).dropWhile isPyDigit)
    else c :: spaceDigitRunsAux fuel (cnt + 1) cs

/-- Prefix the first count maximal digit runs with a space (re.sub of the
group digits-plus by space-group with a count argument). -/
def spaceDigitRuns (cnt : Nat) (s : Str) : Str := spaceDigitRunsAux s.length cnt s

/-- Bounded scan of squashAllWs. -/
def squashAllWsAux : Nat → Str → Str
  | _, [] => []
  | 0, s => s
  | fuel+1, c :: cs =>
    if isPySpace c then ' ' :: squashAllWsAux fuel ((c :: cs).dropWhile isPySpace)
    else c :: squashAllWsAux fuel cs

/-- Replacement of every whitespace run by a single space (re.sub of
whitespace-plus by one space). -/
def squashAllWs (s : Str) : Str := squashAllWsAux s.length s

/-- Anchored match of [Cc] digits-plus orf digits-plus (chromosome orf gene
codes, excluded from spacing variants). -/
def matchOrf (s : Str) : Bool :=
  match s with
  | [] => false
  | c :: rest =>
    (c == 'C' || c == 'c') &&
      (let ds := rest.takeWhile isPyDigit
       !ds.isEmpty &&
         (let r2 := rest.drop ds.length
          "orf".toList.isPrefixOf r2 &&
            (((r2.drop 3).head?.map isPyDigit).getD false)))

/-- Anchored match of UNQ digits-plus slash PRO digits-plus. -/
def matchUnq (s : Str) : Bool :=
  "UNQ".toList.isPrefixOf s &&
    (let r := s.drop 3
     let ds := r.takeWhile isPyDigit
     !ds.isEmpty &&
       (let r2 := r.drop ds.length
        "/PRO".toList.isPrefixOf r2 && (((r2.drop 4).head?.map isPyDigit).getD false)))

/-- Anchored match of KIAA digits-plus. -/
def matchKiaa (s : Str) : Bool :=
  "KIAA".toList.isPrefixOf s && (((s.drop 4).head?.map isPyDigit).getD false)

/-- Full match of one [A-z] character followed by one to three digits. -/
def fullmatchLetterDigits (s : Str) : Bool :=
  match s with
  | [] => false
  | c :: rest => isAzClass c && !rest.isEmpty && decide (rest.length ≤ 3) && rest.all isPyDigit

/-- Full match of CI, RR, AIM, FBS or IOP followed by digits. -/
def fullmatchCodes (s : Str) : Bool :=
  (["CI", "RR", "AIM", "FBS", "IOP"].map String.toList).any (fun p =>
    p.isPrefixOf s &&
      (let r := s.drop p.length
       !r.isEmpty && r.all isPyDigit))

/-- The while loop inside add_space_before_number (get_synonyms.py lines
452-456): while the pattern still finds an unspaced number, space one more
digit run and append the space-squashed variant.  Each iteration raises the
count by one and the number of digit runs is bounded by the string length,
so the loop ends within length-plus-one iterations (matching the Python
loop, which terminates for the same reason). -/
def addSpaceWhile : Nat → Str → Nat → List Str → List Str
  | 0, _, _, acc => acc
  | fuel+1, sv, position, acc =>
    if searchNumberInGene sv then
      let pos2 := position + 1
      let sv2 := spaceDigitRuns pos2 sv
      addSpaceWhile fuel sv2 pos2 (acc ++ [squashAllWs sv2])
    else acc

/-- ExtractOLSSynonyms.add_space_before_number (get_synonyms.py lines
418-460): for eligible synonyms (hyphens replaced by spaces, fixed-format
codes and long phrases excluded), for every pattern match and every digit run
of the matched text, add a variant with a space before that run, then keep
spacing further runs while unspaced numbers remain. -/
def addSpaceBeforeNumber (syns : List Str) : List Str :=
  let diff := syns.foldl (fun acc syn0 =>
    let syn := hyphens.foldl (fun s h => replaceAll [h] " ".toList s) syn0
    if !matchOrf syn && !matchUnq syn && !matchKiaa syn && !fullmatchLetterDigits syn &&
        !fullmatchCodes syn && !decide (2 < (syn.splitOn ' ').length) then
      (findIterSpans numberInGeneMatchEnd syn (syn.length + 1) 0).foldl
        (fun acc2 se =>
          let res := (syn.drop se.1).take (se.2 - se.1)
          ((digitRuns res).foldl (fun (st : List Str × Nat) run =>
            let n := st.2 + 1
            let sv := replaceCount run (' ' :: run) n syn
            (addSpaceWhile (sv.length + 1) sv n (st.1 ++ [sv]), n)) (acc2, 0)).1)
        acc
    else acc) []
  dedupKeepFirst (syns ++ diff)

/-- ExtractOLSSynonyms.remove_space_hyphen_before_number (get_synonyms.py
lines 462-490): for every synonym (hyphens replaced by spaces) and every
match of whitespace before a number, add a variant with that match replaced
by its left-stripped text (the nth substitution for the nth match). -/
def removeSpaceHyphenBeforeNumber (syns : List Str) : List Str :=
  let diff := syns.foldl (fun acc syn0 =>
    let syn := hyphens.foldl (fun s h => replaceAll [h] " ".toList s) syn0
    ((findIterSpans shMatchEnd syn (syn.length + 1) 0).foldl
      (fun (st : List Str × Nat) se =>
        let n := st.2 + 1
        let res := (syn.drop se.1).take (se.2 - se.1)
        (st.1 ++ [replaceCount res (res.dropWhile isPySpace) n syn], n)) (acc, 0)).1) []
  dedupKeepFirst (syns ++ diff)

/-- ExtractOLSSynonyms.remove_multiple_spaces (get_synonyms.py lines
492-503). -/
def removeMultipleSpaces (syns : List Str) : List Str := syns.map squashSpaces

/-- ExtractOLSSynonyms.greek_char_and_spacing_expansion (get_synonyms.py
lines 505-520). -/
def greekCharAndSpacingExpansion (syns : List Str) : List Str :=
  removeMultipleSpaces
    (removeSpaceHyphenBeforeNumber (addSpaceBeforeNumber (expandGreekLetters syns)))

/-- ExtractOLSSynonyms.clean_syn_list (get_synonyms.py lines 659-701): noise
and punctuation removal, redundancy elimination, type reordering expansion,
chain stripping, greek and spacing expansion, and a final redundancy pass.
A falsy (empty) syns_list makes the Python method work on self.syns instead
and return None; the model takes that attribute as the selfSyns argument and
always returns the cleaned list. -/
def cleanSynList (origTerm : Str) (minSynLen : Nat) (selfSyns : List Str)
    (synsList : List Str) (synType : Str) : List Str :=
  let syns := if synsList.isEmpty then selfSyns else synsList
  let filtered := removeNoiseAndPunctuation origTerm minSynLen syns synType
  let nonRedundant := removeRedundantSyns filtered
  let typeExpanded := expandTypes nonRedundant
  let removedChain := removeChainFromEnd typeExpanded
  let expSyns := greekCharAndSpacingExpansion removedChain
  removeRedundantSyns expSyns

end LitSpy

namespace LitSpy

set_option maxRecDepth 400000 in
/-- C7 counterexample: the full cleaning pipeline does not always keep the
original term.  For term flu virus (minimum synonym length 3) and raw
candidate list [flu], the shorter candidate flu marks the original term as a
redundant whole-word superstring, and the cleaned list is [flu]: the
original term is absent. -/
theorem C7_counterexample :
    cleanSynList "flu virus".toList 3 [] ["flu".toList] "other".toList = ["flu".toList] ∧
      "flu virus".toList ∉
        cleanSynList "flu virus".toList 3 [] ["flu".toList] "other".toList := by
  refine ⟨by decide, by decide⟩

/-- C7 amended: the noise-and-punctuation stage always returns the original
term, placed in front of the filtered candidates (get_synonyms.py line 381);
it is the later redundancy elimination that can remove it again. -/
theorem C7_noise_stage_keeps_original_term (origTerm : Str) (minSynLen : Nat)
    (synList : List Str) (synType : Str) :
    (removeNoiseAndPunctuation origTerm minSynLen synList synType).head? = some origTerm ∧
      origTerm ∈ removeNoiseAndPunctuation origTerm minSynLen synList synType := by
  constructor
  · rfl
  · exact List.mem_cons_self _ _

set_option maxRecDepth 400000 in
/-- C5 counterexample: clean_syn_list is not idempotent.  For term vvv
(minimum synonym length 3) and input [rp chain], the first application
strips the trailing chain and returns [vvv, rp]; reapplying the pipeline to
that output drops rp, which is shorter than the minimum synonym length, so
the second application returns a strictly smaller synonym set. -/
theorem C5_counterexample :
    "rp".toList ∈ cleanSynList "vvv".toList 3 [] ["rp chain".toList] "other".toList ∧
      "rp".toList ∉
        cleanSynList "vvv".toList 3 []
          (cleanSynList "vvv".toList 3 [] ["rp chain".toList] "other".toList)
          "other".toList := by
  refine ⟨by decide, by decide⟩

set_option maxRecDepth 400000 in
/-- C5 amended: on the counterexample input the two applications are fully
characterised: the first run produces [vvv, rp] (the member rp created by
chain stripping falls below the minimum synonym length of 3), and the second
run removes exactly that under-length member, returning [vvv]. -/
theorem C5_second_application_drops_short_artifact :
    cleanSynList "vvv".toList 3 [] ["rp chain".toList] "other".toList
        = ["vvv".toList, "rp".toList] ∧
      cleanSynList "vvv".toList 3 [] ["vvv".toList, "rp".toList] "other".toList
        = ["vvv".toList] ∧
      "rp".toList.length < 3 := by
  refine ⟨by decide, by decide, by decide⟩

end LitSpy
